import Mathlib

/-!
Verification development for the stock analyzer's core pipeline
(`fundamental_analyzer.py`): ticker normalization, fundamental ratio
computation, net-income growth, and currency-aware formatting.

The Python source is shallowly embedded: numbers are modelled by `ℚ`
(finite floats; non-finite specials are outside the model), the CAGR
exponentiation by `Real.rpow`, Python strings by `List Char` / `String`,
`None`-able values by `Option`, and the external yfinance gateway by an
explicit record of per-symbol responses.
-/

/-- Characters treated as whitespace by Python `str.strip`. -/
def isWsChar (c : Char) : Bool :=
  c = ' ' || c = '\t' || c = '\n' || c = '\r' || c = '\x0b' || c = '\x0c'

/-- Ticker symbols and raw user input are modelled as lists of characters. -/
abbrev Chars : Type := List Char

/-- Python `str.upper` over a whole string, one ASCII character at a time. -/
def upper (l : Chars) : Chars := l.map Char.toUpper

/-- Python `str.strip`: drop whitespace from both ends. -/
def stripWs (l : Chars) : Chars := (l.dropWhile isWsChar).rdropWhile isWsChar

/-- Decimal digit character for `n % 10`. -/
def digitCh (n : ℕ) : Char := Char.ofNat (48 + n % 10)

/-- Fuel-driven digit expansion, most significant digit first. -/
def natDigitsGo : ℕ → ℕ → List Char
  | 0, _ => []
  | fuel + 1, n => if n < 10 then [digitCh n] else natDigitsGo fuel (n / 10) ++ [digitCh (n % 10)]

/-- Decimal digit characters of a natural number, most significant first. -/
def natDigits (n : ℕ) : List Char := natDigitsGo (n + 1) n

/-- Decimal rendering of a natural number. -/
def natStr (n : ℕ) : String := String.mk (natDigits n)

/-- Decimal rendering of an integer. -/
def intStr (n : ℤ) : String := (if n < 0 then "-" else "") ++ natStr n.natAbs

/-- Insert thousands separators; input and output are digit lists with the
least significant digit first. -/
def group3 : List Char → List Char
  | a :: b :: c :: rest@(_ :: _) => a :: b :: c :: ',' :: group3 rest
  | l => l

/-- Digits of `n` with comma thousands grouping, as the Python format spec
with a comma produces. -/
def natDigitsGrouped (n : ℕ) : List Char := (group3 (natDigits n).reverse).reverse

/-- Left-pad a digit list with zeros up to width `d`. -/
def padZeros (d : ℕ) (l : List Char) : List Char := List.replicate (d - l.length) '0' ++ l

/-- Round a rational to the nearest integer, ties to even: the rounding used by
Python float formatting on exactly representable values. -/
def roundHalfEvenQ (q : ℚ) : ℤ :=
  let f : ℤ := ⌊q⌋
  let r : ℚ := q - f
  if r < 1/2 then f
  else if 1/2 < r then f + 1
  else if f % 2 = 0 then f else f + 1

/-- Python fixed-point formatting with `d` decimal places; when `grouped` is
true, commas separate every three integer digits. The sign is taken from the
value and the magnitude is rounded half to even. -/
def fmtFixedQ (grouped : Bool) (d : ℕ) (q : ℚ) : String :=
  let sign : String := if q < 0 then "-" else ""
  let n : ℕ := (roundHalfEvenQ (|q| * 10 ^ d)).toNat
  let ip := n / 10 ^ d
  let fp := n % 10 ^ d
  let ipStr := String.mk (if grouped then natDigitsGrouped ip else natDigits ip)
  let fracStr := if d = 0 then "" else "." ++ String.mk (padZeros d (natDigits fp))
  sign ++ ipStr ++ fracStr

/-- Fixed-point formatting carried over to the reals, for values (such as the
CAGR) produced by real exponentiation. -/
noncomputable def roundHalfEvenR (x : ℝ) : ℤ :=
  let f : ℤ := ⌊x⌋
  let r : ℝ := x - f
  if r < 1/2 then f
  else if 1/2 < r then f + 1
  else if f % 2 = 0 then f else f + 1

/-- Real-valued counterpart of `fmtFixedQ` (no grouping). -/
noncomputable def fmtFixedR (d : ℕ) (x : ℝ) : String :=
  let sign : String := if x < 0 then "-" else ""
  let n : ℕ := (roundHalfEvenR (|x| * 10 ^ d)).toNat
  let ip := n / 10 ^ d
  let fp := n % 10 ^ d
  sign ++ String.mk (natDigits ip) ++
    (if d = 0 then "" else "." ++ String.mk (padZeros d (natDigits fp)))

/-- Numeric value of a digit character. -/
def digitVal (c : Char) : ℕ := c.toNat - 48

/-- Value of a digit list, most significant first; the empty list counts as 0,
matching how a missing integer or fractional part behaves in a float literal. -/
def natOfDigits (l : List Char) : ℕ := l.foldl (fun a c => 10 * a + digitVal c) 0

/-- Parse the unsigned part of the decimal grammar accepted by Python float
conversion: digits with an optional single point, at least one digit overall.
Scientific notation and non-finite specials are outside this model. -/
def parseUnsigned (l : List Char) : Option ℚ :=
  let ip := l.takeWhile fun c => c.isDigit
  let rest := l.dropWhile fun c => c.isDigit
  match rest with
  | [] => if ip.isEmpty then none else some ((natOfDigits ip : ℚ))
  | '.' :: fp =>
    if (fp.all fun c => c.isDigit) && (!ip.isEmpty || !fp.isEmpty) then
      some ((natOfDigits ip : ℚ) + (natOfDigits fp : ℚ) / 10 ^ fp.length)
    else none
  | _ => none

/-- Python `float` applied to a string: optional surrounding whitespace,
optional sign, then the unsigned decimal grammar; `none` models a raised
`ValueError`. -/
def parseDec (s : String) : Option ℚ :=
  match stripWs s.data with
  | '+' :: r => parseUnsigned r
  | '-' :: r => (parseUnsigned r).map (fun q => -q)
  | l => parseUnsigned l

/-- Dynamic value reaching the formatters: Python `None`, a finite number, or
an arbitrary string. -/
inductive PyVal where
  | vnone : PyVal
  | num : ℚ → PyVal
  | str : String → PyVal
deriving DecidableEq

/-- Python `float(x)` on a dynamic value; `none` models a raised exception
(`TypeError` for `None`, `ValueError` for a non-numeric string). -/
def pyFloat : PyVal → Option ℚ
  | .vnone => none
  | .num q => some q
  | .str s => parseDec s

/-- The source's test `str(x).lower() == "nan"`. A finite number or `None`
never prints as `nan`, so only string inputs can pass the test. -/
def isNanLike : PyVal → Bool
  | .str s => s.data.map Char.toLower == "nan".data
  | _ => false

/-- Python `str` of the raw value, used by the fallback branch of the Rupiah
formatter. The rendering of a finite float is abbreviated to a fixed-width
form here; that branch is unreachable for numeric inputs. -/
def pyStrOf : PyVal → String
  | .vnone => "None"
  | .num q => if q.den = 1 then intStr q.num else fmtFixedQ false 6 q
  | .str s => s

/-- Embedding of `format_rp_short`: abbreviated Rupiah rendering with K, M, B,
T thresholds, falling back to `Rp ` followed by the raw value when float
conversion fails. -/
def format_rp_short (x : PyVal) : String :=
  if x = PyVal.vnone ∨ isNanLike x = true then "Rp 0"
  else
    match pyFloat x with
    | none => "Rp " ++ pyStrOf x
    | some q =>
      if 1000000000000 ≤ |q| then "Rp " ++ fmtFixedQ false 2 (q / 1000000000000) ++ "T"
      else if 1000000000 ≤ |q| then "Rp " ++ fmtFixedQ false 2 (q / 1000000000) ++ "B"
      else if 1000000 ≤ |q| then "Rp " ++ fmtFixedQ false 2 (q / 1000000) ++ "M"
      else if 1000 ≤ |q| then "Rp " ++ fmtFixedQ false 2 (q / 1000) ++ "K"
      else "Rp " ++ fmtFixedQ true 0 q

/-- Embedding of `format_usd_short`: abbreviated USD rendering; the sign is
peeled off before the magnitude is classified. -/
def format_usd_short (x : PyVal) : String :=
  if x = PyVal.vnone ∨ isNanLike x = true then "$0"
  else
    match pyFloat x with
    | none => "$0"
    | some q =>
      let sign : String := if q < 0 then "-" else ""
      let a := |q|
      if 1000000000000 ≤ a then sign ++ "$" ++ fmtFixedQ false 2 (a / 1000000000000) ++ "T"
      else if 1000000000 ≤ a then sign ++ "$" ++ fmtFixedQ false 2 (a / 1000000000) ++ "B"
      else if 1000000 ≤ a then sign ++ "$" ++ fmtFixedQ false 2 (a / 1000000) ++ "M"
      else if 1000 ≤ a then sign ++ "$" ++ fmtFixedQ false 2 (a / 1000) ++ "K"
      else sign ++ "$" ++ fmtFixedQ true 2 a

/-- Python truthiness of the optional exchange rate: `None` and zero are both
falsy, everything else is truthy. -/
def rateTruthy : Option ℚ → Bool
  | none => false
  | some r => decide (r ≠ 0)

/-- Embedding of `format_idr_with_usd`: the Rupiah short form, with the USD
short form of `x / rate` appended in parentheses when the rate is truthy and
float conversion of `x` succeeds. -/
def format_idr_with_usd (x : PyVal) (usd_idr_rate : Option ℚ) : String :=
  let idr_part := format_rp_short x
  match usd_idr_rate with
  | none => idr_part
  | some r =>
    if r = 0 then idr_part
    else
      match pyFloat x with
      | none => idr_part
      | some q => idr_part ++ " (" ++ format_usd_short (PyVal.num (q / r)) ++ ")"

example : format_rp_short (PyVal.num 0) = "Rp 0" := by with_unfolding_all decide
example : format_rp_short PyVal.vnone = "Rp 0" := by with_unfolding_all decide
example : format_rp_short (PyVal.str "abc") = "Rp abc" := by with_unfolding_all decide
example : format_usd_short (PyVal.num (-2500000000)) = "-$2.50B" := by with_unfolding_all decide
example : format_idr_with_usd (PyVal.num 60150000000000) (some 15820) =
    "Rp 60.15T ($3.80B)" := by with_unfolding_all decide

/-- The fixed ordered list of exchange suffixes from the source; the empty
entry stands for the bare (US) symbol and is skipped by the suffix loop. -/
def EXCHANGE_SUFFIXES : List Chars :=
  [[], ".JK".data, ".NS".data, ".BO".data, ".TO".data, ".V".data, ".L".data,
   ".SI".data, ".AX".data, ".HK".data, ".T".data, ".KS".data, ".KQ".data,
   ".SS".data, ".SZ".data, ".TW".data, ".NZ".data, ".MX".data]

/-- Loop body of `normalize_ticker`: skip the empty suffix, try each remaining
suffix in order, and return the first candidate the gateway validates. -/
def firstSuffixHit (valid : Chars → Bool) (symbol : Chars) : List Chars → Option Chars
  | [] => none
  | sfx :: rest =>
    if sfx = [] then firstSuffixHit valid symbol rest
    else if valid (symbol ++ sfx) then some (symbol ++ sfx)
    else firstSuffixHit valid symbol rest

/-- Embedding of `normalize_ticker`, parameterized by the gateway's validity
oracle (`is_valid_ticker`). -/
def normalize_ticker (valid : Chars → Bool) (raw_ticker : Chars) : Chars :=
  let symbol := upper (stripWs raw_ticker)
  if symbol = [] then symbol
  else if '.' ∈ symbol then symbol
  else if valid symbol then symbol
  else
    match firstSuffixHit valid symbol EXCHANGE_SUFFIXES with
    | some c => c
    | none => symbol

/-- Instrumented form of the suffix loop, also returning the candidate symbols
submitted to the gateway for validation, in order. -/
def firstSuffixHitCalls (valid : Chars → Bool) (symbol : Chars) :
    List Chars → Option Chars × List Chars
  | [] => (none, [])
  | sfx :: rest =>
    if sfx = [] then firstSuffixHitCalls valid symbol rest
    else if valid (symbol ++ sfx) then (some (symbol ++ sfx), [symbol ++ sfx])
    else
      let r := firstSuffixHitCalls valid symbol rest
      (r.1, (symbol ++ sfx) :: r.2)

/-- Instrumented `normalize_ticker`: the result together with every symbol
validated against the gateway (each validation is one network lookup). -/
def normalize_ticker_calls (valid : Chars → Bool) (raw_ticker : Chars) :
    Chars × List Chars :=
  let symbol := upper (stripWs raw_ticker)
  if symbol = [] then (symbol, [])
  else if '.' ∈ symbol then (symbol, [])
  else if valid symbol then (symbol, [symbol])
  else
    match firstSuffixHitCalls valid symbol EXCHANGE_SUFFIXES with
    | (some c, cs) => (c, symbol :: cs)
    | (none, cs) => (symbol, symbol :: cs)

/-- Spec-side description of the suffix search: candidates are the bare symbol
joined with each non-empty suffix in priority order, and the first candidate
the gateway validates is chosen. -/
def firstValidCandidate (valid : Chars → Bool) (symbol : Chars) : Option Chars :=
  ((EXCHANGE_SUFFIXES.filter fun sfx => !sfx.isEmpty).map fun sfx => symbol ++ sfx).find? valid

/-- Fields of the yfinance info mapping consumed by the analyzer; every field
may be absent. -/
structure GInfo where
  shortName : Option String := none
  longName : Option String := none
  sector : Option String := none
  industry : Option String := none
  currency : Option String := none
  currentPrice : Option ℚ := none
  regularMarketPrice : Option ℚ := none
  marketCap : Option ℚ := none
  sharesOutstanding : Option ℚ := none
  trailingEps : Option ℚ := none
  bookValue : Option ℚ := none
  returnOnEquity : Option ℚ := none
  dividendYield : Option ℚ := none

/-- Most recent balance-sheet column; each line item may be absent. -/
structure BalanceCol where
  totalDebt : Option ℚ := none
  totalEquity : Option ℚ := none

/-- The external market data gateway, one immutable record of per-symbol
responses: info lookups, the most recent balance-sheet column (`none` models a
raised error or an empty statement), the Net Income row of the income
statement across periods (`none` models an error or a missing row), and the
USD-IDR rate (`none` models a failed FX lookup). -/
structure Gateway where
  infoOf : Chars → GInfo
  balanceOf : Chars → Option BalanceCol
  netIncomeOf : Chars → Option (List (ℕ × ℚ))
  usdIdrRate : Option ℚ

/-- Python `a or b` on optional numbers: `None` and zero are falsy. -/
def pyOrQ (a b : Option ℚ) : Option ℚ :=
  match a with
  | some q => if q = 0 then b else some q
  | none => b

/-- Python `a or b` on optional strings: `None` and the empty string are falsy. -/
def pyOrStr (a b : Option String) : Option String :=
  match a with
  | some s => if s = "" then b else some s
  | none => b

/-- Embedding of `is_valid_ticker`: the symbol is valid when its info lookup
carries a current or regular market price. -/
def is_valid_ticker (g : Gateway) (t : Chars) : Bool :=
  (pyOrQ (g.infoOf t).currentPrice (g.infoOf t).regularMarketPrice).isSome

/-- The basic info dictionary assembled by `get_basic_info`. -/
structure BasicInfo where
  shortName : Option String
  longName : Option String
  sector : Option String
  industry : Option String
  currency : Option String
  currentPrice : Option ℚ
  marketCap : Option ℚ
  sharesOutstanding : Option ℚ

/-- Embedding of `get_basic_info`; the returned yfinance handle is represented
by the symbol itself, through which later statement lookups go. -/
def get_basic_info (g : Gateway) (t : Chars) : BasicInfo :=
  let i := g.infoOf t
  { shortName := i.shortName
    longName := i.longName
    sector := i.sector
    industry := i.industry
    currency := i.currency
    currentPrice := pyOrQ i.currentPrice i.regularMarketPrice
    marketCap := i.marketCap
    sharesOutstanding := i.sharesOutstanding }

/-- Guarded division from the source: `None` operands and a zero divisor give
`None` instead of an exception or an infinity. -/
def safe_div (x y : Option ℚ) : Option ℚ :=
  match x, y with
  | some a, some b => if b = 0 then none else some (a / b)
  | _, _ => none

/-- The five fundamental ratios; the last field is the source's
DividendYield percentage key. -/
structure Ratios where
  PER : Option ℚ
  PBV : Option ℚ
  ROE : Option ℚ
  DER : Option ℚ
  DividendYieldPct : Option ℚ
deriving DecidableEq

/-- Embedding of `compute_ratios`: price over EPS, price over book value,
scaled ROE and dividend yield, and debt over equity from the most recent
balance-sheet column. -/
def compute_ratios (info : BasicInfo) (g : Gateway) (t : Chars) : Ratios :=
  let price := info.currentPrice
  { PER := safe_div price (g.infoOf t).trailingEps
    PBV := safe_div price (g.infoOf t).bookValue
    ROE := (g.infoOf t).returnOnEquity.map fun r => r * 100
    DER :=
      match g.balanceOf t with
      | none => none
      | some col => safe_div col.totalDebt col.totalEquity
    DividendYieldPct := (g.infoOf t).dividendYield.map fun d => d * 100 }

/-- Ascending chronological sort of the Net Income row, as pandas sort_index
orders a series by its index. -/
def sortNI (ps : List (ℕ × ℚ)) : List (ℕ × ℚ) :=
  List.insertionSort (fun a b => a.1 ≤ b.1) ps

/-- The growth dictionary: period-to-value list plus the optional CAGR
percentage. -/
structure Growth where
  values : List (ℕ × ℚ)
  cagr : Option ℝ

/-- Embedding of `get_growth` applied to the gateway's Net Income row: sort
periods ascending; with at least two periods and a non-zero first value the
CAGR is the source's compound-growth formula, scaled to a percentage;
otherwise it is undefined. -/
noncomputable def get_growth (row : Option (List (ℕ × ℚ))) : Option Growth :=
  match row with
  | none => none
  | some ps =>
    let ni := sortNI ps
    let cagr : Option ℝ :=
      match ni with
      | f :: b :: t =>
        if f.2 = 0 then none
        else some (((((b :: t).getLastD (0, 0)).2 : ℝ) / (f.2 : ℝ)) ^
          ((1 : ℝ) / ((b :: t).length : ℝ)) - 1)
      | _ => none
    some { values := ni, cagr := cagr.map fun c => c * 100 }

/-- A single gateway network operation performed during an analysis. -/
inductive GCall where
  | infoQ : Chars → GCall
  | balanceQ : Chars → GCall
  | financialsQ : Chars → GCall
  | fxQ : GCall
deriving DecidableEq

/-- Ratio block of the web result: raw value and formatted companion for each
of the five ratios. -/
structure WebRatios where
  PER : Option ℚ
  PER_str : Option String
  PBV : Option ℚ
  PBV_str : Option String
  ROE : Option ℚ
  ROE_str : Option String
  DER : Option ℚ
  DER_str : Option String
  DividendYieldPct : Option ℚ
  DividendYield_str : Option String
deriving DecidableEq, Inhabited

/-- One row of the web growth table. -/
structure GrowthRow where
  period : String
  value_str : String
deriving DecidableEq, Inhabited

/-- The dictionary returned by `analyze_stock_for_web`. -/
structure WebResult where
  input_ticker : Chars
  used_ticker : Chars
  name : Option String
  sector : Option String
  industry : Option String
  currency : Option String
  price_str : String
  market_cap_str : String
  shares_out_str : String
  ratios : WebRatios
  growth_list : List GrowthRow
  growth_cagr_str : Option String
deriving Inhabited

/-- Python `str` of an optional number, as interpolated into the fallback
money strings for currencies other than IDR and USD. -/
def pyOptNumStr : Option ℚ → String
  | none => "None"
  | some q => pyStrOf (PyVal.num q)

/-- Python string interpolation of the optional currency code. -/
def currTag : Option String → String
  | none => "None"
  | some c => c

/-- Lift an optional number into a formatter argument. -/
def toPyVal : Option ℚ → PyVal
  | none => PyVal.vnone
  | some q => PyVal.num q

/-- The source's local helper `fmt2`: two-decimal rendering of a present
value, `None` otherwise. -/
def fmt2 (x : Option ℚ) : Option String := x.map (fmtFixedQ false 2)

/-- Embedding of `analyze_stock_for_web`. The first component is the returned
dictionary, or the raised empty-ticker error; the second lists the gateway
operations the call performs, in order: validation lookups from the
normalizer, the basic info lookup, the balance-sheet and income-statement
lookups, and the FX lookup for IDR instruments. -/
noncomputable def analyze_stock_for_web (g : Gateway) (raw_ticker : Chars) :
    Except String WebResult × List GCall :=
  if raw_ticker = [] then (Except.error "Ticker kosong", [])
  else
    let input_ticker := upper (stripWs raw_ticker)
    let nt := normalize_ticker_calls (is_valid_ticker g) input_ticker
    let norm := nt.1
    let info := get_basic_info g norm
    let ratios := compute_ratios info g norm
    let growth := get_growth (g.netIncomeOf norm)
    let curr := info.currency
    let usd_rate : Option ℚ := if curr = some "IDR" then g.usdIdrRate else none
    let money : Option ℚ → String := fun v =>
      if curr = some "IDR" then format_idr_with_usd (toPyVal v) usd_rate
      else if curr = some "USD" then format_usd_short (toPyVal v)
      else pyOptNumStr v ++ " " ++ currTag curr
    let moneyVal : ℚ → String := fun v =>
      if curr = some "IDR" then format_idr_with_usd (PyVal.num v) usd_rate
      else if curr = some "USD" then format_usd_short (PyVal.num v)
      else pyStrOf (PyVal.num v) ++ " " ++ currTag curr
    let ratios_formatted : WebRatios :=
      { PER := ratios.PER, PER_str := fmt2 ratios.PER
        PBV := ratios.PBV, PBV_str := fmt2 ratios.PBV
        ROE := ratios.ROE, ROE_str := fmt2 ratios.ROE
        DER := ratios.DER, DER_str := fmt2 ratios.DER
        DividendYieldPct := ratios.DividendYieldPct
        DividendYield_str := fmt2 ratios.DividendYieldPct }
    let growth_list : List GrowthRow :=
      match growth with
      | none => []
      | some gr => gr.values.map fun pv => { period := natStr pv.1, value_str := moneyVal pv.2 }
    let growth_cagr_str : Option String :=
      match growth with
      | none => none
      | some gr => gr.cagr.map (fmtFixedR 2)
    let result : WebResult :=
      { input_ticker := input_ticker
        used_ticker := norm
        name := pyOrStr info.longName info.shortName
        sector := info.sector
        industry := info.industry
        currency := curr
        price_str := money info.currentPrice
        market_cap_str := money info.marketCap
        shares_out_str := money info.sharesOutstanding
        ratios := ratios_formatted
        growth_list := growth_list
        growth_cagr_str := growth_cagr_str }
    (Except.ok result,
      nt.2.map GCall.infoQ ++ [GCall.infoQ norm, GCall.balanceQ norm, GCall.financialsQ norm]
        ++ if curr = some "IDR" then [GCall.fxQ] else [])

/-- Result of a successful analysis; the default record stands in when the
call fails, which for a non-empty ticker never happens. -/
noncomputable def resultOf (g : Gateway) (raw_ticker : Chars) : WebResult :=
  match (analyze_stock_for_web g raw_ticker).1 with
  | .ok r => r
  | .error _ => default

/-- A gateway with no data at all. -/
def gNone : Gateway where
  infoOf := fun _ => {}
  balanceOf := fun _ => none
  netIncomeOf := fun _ => none
  usdIdrRate := none

/-- A gateway holding the spec's USD stub data for the symbol AAPL. -/
def gAAPL : Gateway where
  infoOf := fun t =>
    if t = "AAPL".data then
      { longName := some "Apple Inc.", currency := some "USD", currentPrice := some 150,
        trailingEps := some 5, bookValue := some 20, returnOnEquity := some (1/4),
        dividendYield := some (1/50) }
    else {}
  balanceOf := fun _ => none
  netIncomeOf := fun _ => none
  usdIdrRate := none

/-- C2: `compute_ratios` cannot fail: division is guarded, so a missing
operand or a zero divisor in PER, PBV, or DER yields an undefined ratio
rather than an exception or an infinite value, and each of the five ratio
fields is a function of its own source fields alone, so failure to obtain one
field's inputs cannot affect the other four. -/
theorem compute_ratios_guarded_independent :
    (∀ x : Option ℚ, safe_div x (some 0) = none) ∧
    (∀ y : Option ℚ, safe_div none y = none) ∧
    (∀ x : Option ℚ, safe_div x none = none) ∧
    (∀ a b : ℚ, b ≠ 0 → safe_div (some a) (some b) = some (a / b)) ∧
    (∀ (info info' : BasicInfo) (g g' : Gateway) (t t' : Chars),
      (info.currentPrice = info'.currentPrice →
          (g.infoOf t).trailingEps = (g'.infoOf t').trailingEps →
          (compute_ratios info g t).PER = (compute_ratios info' g' t').PER) ∧
      (info.currentPrice = info'.currentPrice →
          (g.infoOf t).bookValue = (g'.infoOf t').bookValue →
          (compute_ratios info g t).PBV = (compute_ratios info' g' t').PBV) ∧
      ((g.infoOf t).returnOnEquity = (g'.infoOf t').returnOnEquity →
          (compute_ratios info g t).ROE = (compute_ratios info' g' t').ROE) ∧
      (g.balanceOf t = g'.balanceOf t' →
          (compute_ratios info g t).DER = (compute_ratios info' g' t').DER) ∧
      ((g.infoOf t).dividendYield = (g'.infoOf t').dividendYield →
          (compute_ratios info g t).DividendYieldPct =
            (compute_ratios info' g' t').DividendYieldPct)) := by
  refine ⟨fun x => ?_, fun y => ?_, fun x => ?_, fun a b hb => ?_, ?_⟩
  · cases x <;> simp [safe_div]
  · simp [safe_div]
  · cases x <;> simp [safe_div]
  · simp [safe_div, hb]
  · intro info info' g g' t t'
    refine ⟨fun h1 h2 => ?_, fun h1 h2 => ?_, fun h => ?_, fun h => ?_, fun h => ?_⟩
    · simp [compute_ratios, h1, h2]
    · simp [compute_ratios, h1, h2]
    · simp [compute_ratios, h]
    · simp [compute_ratios, h]
    · simp [compute_ratios, h]

/-- Witness for the C2 theorem at concrete inputs: a zero divisor yields an
undefined ratio, and two gateways that agree on the ROE field (but nothing
else is assumed) produce the same ROE. -/
theorem compute_ratios_guarded_independent_witness :
    safe_div (some 150) (some 0) = none ∧
    safe_div (some 150) (some 5) = some 30 ∧
    (compute_ratios (get_basic_info gNone []) gNone []).ROE =
      (compute_ratios (get_basic_info gAAPL []) gAAPL []).ROE := by
  refine ⟨compute_ratios_guarded_independent.1 (some 150), ?_, ?_⟩
  · rw [compute_ratios_guarded_independent.2.2.2.1 150 5 (by norm_num)]
    norm_num
  · exact (compute_ratios_guarded_independent.2.2.2.2
      (get_basic_info gNone []) (get_basic_info gAAPL []) gNone gAAPL [] []).2.2.1
      (by with_unfolding_all decide)

/-- C3 counterexample: on the non-numeric string input abc the Rupiah
formatter does not produce the zero value; the fallback branch instead
renders the raw value after the currency marker. -/
theorem format_rp_short_nonnumeric_cex :
    format_rp_short (PyVal.str "abc") = "Rp abc" ∧
    format_rp_short (PyVal.str "abc") ≠ "Rp 0" := by
  constructor <;> with_unfolding_all decide

/-- C3 amended: a null input, the number zero, and any string printing as nan
format as the zero value with the currency marker; any other non-numeric
string formats, still without raising, as the currency marker followed by the
raw string. -/
theorem format_rp_short_null_zero_nan (s : String) (hs : parseDec s = none) :
    format_rp_short PyVal.vnone = "Rp 0" ∧
    format_rp_short (PyVal.num 0) = "Rp 0" ∧
    (s.data.map Char.toLower = "nan".data → format_rp_short (PyVal.str s) = "Rp 0") ∧
    (s.data.map Char.toLower ≠ "nan".data →
      format_rp_short (PyVal.str s) = "Rp " ++ s) := by
  refine ⟨by with_unfolding_all decide, by with_unfolding_all decide,
    fun h => ?_, fun h => ?_⟩
  · simp [format_rp_short, isNanLike, beq_iff_eq, h]
  · simp [format_rp_short, isNanLike, beq_iff_eq, h, pyFloat, hs, pyStrOf]

/-- Witness for the C3 amended theorem at the inputs None, 0, NaN and abc. -/
theorem format_rp_short_null_zero_nan_witness :
    parseDec "abc" = none ∧ parseDec "NaN" = none ∧
    format_rp_short PyVal.vnone = "Rp 0" ∧
    format_rp_short (PyVal.num 0) = "Rp 0" ∧
    format_rp_short (PyVal.str "NaN") = "Rp 0" ∧
    format_rp_short (PyVal.str "abc") = "Rp abc" := by
  have h1 : parseDec "abc" = none := by with_unfolding_all decide
  have h2 : parseDec "NaN" = none := by with_unfolding_all decide
  refine ⟨h1, h2, (format_rp_short_null_zero_nan "abc" h1).1,
    (format_rp_short_null_zero_nan "abc" h1).2.1,
    (format_rp_short_null_zero_nan "NaN" h2).2.2.1 (by with_unfolding_all decide),
    (format_rp_short_null_zero_nan "abc" h1).2.2.2 (by with_unfolding_all decide)⟩

/-- C5: when the trimmed uppercased input contains a dot, the normalizer
returns it unchanged and submits no symbol to the gateway for validation,
whatever the gateway would answer. -/
theorem normalize_ticker_dot_passthrough (valid : Chars → Bool) (raw : Chars)
    (h : '.' ∈ upper (stripWs raw)) :
    normalize_ticker_calls valid raw = (upper (stripWs raw), []) := by
  have hne : upper (stripWs raw) ≠ [] := List.ne_nil_of_mem h
  simp [normalize_ticker_calls, hne, h]

/-- Witness for C5 at the raw input 7203.t surrounded by spaces, against a
gateway that would validate anything: the dot branch still bypasses
validation. -/
theorem normalize_ticker_dot_passthrough_witness :
    '.' ∈ upper (stripWs " 7203.t ".data) ∧
    normalize_ticker_calls (fun _ => true) " 7203.t ".data = ("7203.T".data, []) := by
  refine ⟨by with_unfolding_all decide, ?_⟩
  rw [normalize_ticker_dot_passthrough (fun _ => true) " 7203.t ".data
    (by with_unfolding_all decide)]
  with_unfolding_all decide

/-- C8: with a truthy exchange rate the combinator produces the Rupiah short
form with the USD short form of the converted value appended in parentheses;
with an unavailable (falsy) rate it returns the Rupiah form alone; and the
spec's concrete example renders as Rp 60.15T with $3.80B in parentheses. -/
theorem format_idr_with_usd_spec (x r : ℚ) (hr : r ≠ 0) :
    format_idr_with_usd (PyVal.num x) (some r) =
      format_rp_short (PyVal.num x) ++ " (" ++
        format_usd_short (PyVal.num (x / r)) ++ ")" ∧
    (∀ y : PyVal, format_idr_with_usd y none = format_rp_short y) ∧
    (∀ y : PyVal, format_idr_with_usd y (some 0) = format_rp_short y) ∧
    format_idr_with_usd (PyVal.num 60150000000000) (some 15820) =
      "Rp 60.15T ($3.80B)" := by
  refine ⟨?_, fun y => rfl, fun y => by simp [format_idr_with_usd],
    by with_unfolding_all decide⟩
  simp [format_idr_with_usd, pyFloat, hr]

/-- Witness for C8 at the spec's concrete example. -/
theorem format_idr_with_usd_spec_witness :
    (15820 : ℚ) ≠ 0 ∧
    format_idr_with_usd (PyVal.num 60150000000000) (some 15820) =
      format_rp_short (PyVal.num 60150000000000) ++ " (" ++
        format_usd_short (PyVal.num (60150000000000 / 15820)) ++ ")" :=
  ⟨by norm_num, (format_idr_with_usd_spec 60150000000000 15820 (by norm_num)).1⟩

/-- The suffix loop agrees with the find-first description over any suffix
list: it returns the first candidate, built from a non-empty suffix in list
order, that the oracle accepts. -/
theorem firstSuffixHit_eq_find (valid : Chars → Bool) (s : Chars) (L : List Chars) :
    firstSuffixHit valid s L =
      ((L.filter fun sfx => !sfx.isEmpty).map fun sfx => s ++ sfx).find? valid := by
  induction L with
  | nil => rfl
  | cons sfx rest ih =>
    by_cases h : sfx = []
    · subst h
      simp [firstSuffixHit, ih, List.filter_cons]
    · have hne : (!sfx.isEmpty) = true := by simp [List.isEmpty_iff, h]
      by_cases hv : valid (s ++ sfx) = true
      · simp [firstSuffixHit, h, hv, List.filter_cons, hne]
      · have hv' : valid (s ++ sfx) = false := by simpa using hv
        simp [firstSuffixHit, h, hv', List.filter_cons, hne, ih]

/-- C4 amended: for a non-empty trimmed uppercased symbol containing no dot,
the normalizer returns either the bare symbol or the bare symbol extended by
one of the fixed exchange suffixes, never anything outside that closed set;
the bare symbol whenever the gateway validates it; otherwise the first
validating candidate in the fixed priority order, and the bare symbol
unchanged when no candidate validates. (The empty symbol, excluded here, is
returned unchanged with no validation at all.) -/
theorem normalize_ticker_no_dot (valid : Chars → Bool) (raw : Chars)
    (hne : upper (stripWs raw) ≠ []) (hdot : '.' ∉ upper (stripWs raw)) :
    (normalize_ticker valid raw = upper (stripWs raw) ∨
      ∃ sfx ∈ EXCHANGE_SUFFIXES, sfx ≠ [] ∧
        normalize_ticker valid raw = upper (stripWs raw) ++ sfx) ∧
    (valid (upper (stripWs raw)) = true →
      normalize_ticker valid raw = upper (stripWs raw)) ∧
    (valid (upper (stripWs raw)) = false →
      normalize_ticker valid raw =
        (firstValidCandidate valid (upper (stripWs raw))).getD (upper (stripWs raw))) := by
  by_cases hv : valid (upper (stripWs raw)) = true
  · have hr : normalize_ticker valid raw = upper (stripWs raw) := by
      simp [normalize_ticker, hne, hdot, hv]
    exact ⟨Or.inl hr, fun _ => hr, fun hfalse => by rw [hv] at hfalse; cases hfalse⟩
  · have hvf : valid (upper (stripWs raw)) = false := by simpa using hv
    cases hss : firstSuffixHit valid (upper (stripWs raw)) EXCHANGE_SUFFIXES with
    | none =>
      have hr : normalize_ticker valid raw = upper (stripWs raw) := by
        simp [normalize_ticker, hne, hdot, hvf, hss]
      have hfc : firstValidCandidate valid (upper (stripWs raw)) = none := by
        rw [firstValidCandidate, ← firstSuffixHit_eq_find, hss]
      refine ⟨Or.inl hr, fun h => hr, fun _ => ?_⟩
      rw [hr, hfc]
      rfl
    | some c =>
      have hr : normalize_ticker valid raw = c := by
        simp [normalize_ticker, hne, hdot, hvf, hss]
      have hfc : firstValidCandidate valid (upper (stripWs raw)) = some c := by
        rw [firstValidCandidate, ← firstSuffixHit_eq_find, hss]
      have hmem : c ∈ (EXCHANGE_SUFFIXES.filter fun sfx => !sfx.isEmpty).map
          (fun sfx => upper (stripWs raw) ++ sfx) := by
        have heq := firstSuffixHit_eq_find valid (upper (stripWs raw)) EXCHANGE_SUFFIXES
        rw [heq] at hss
        exact List.mem_of_find?_eq_some hss
      obtain ⟨sfx, hsfx, hceq⟩ := List.mem_map.mp hmem
      obtain ⟨hsfx1, hsfx2⟩ := List.mem_filter.mp hsfx
      have hsfxne : sfx ≠ [] := by simpa [List.isEmpty_iff] using hsfx2
      refine ⟨Or.inr ⟨sfx, hsfx1, hsfxne, ?_⟩, fun h => ?_, fun _ => ?_⟩
      · rw [hr, ← hceq]
      · rw [h] at hvf
        cases hvf
      · rw [hr, hfc]
        rfl

/-- Oracle validating exactly the single symbol .JK, for the empty-symbol
counterexample below. -/
def validJKOnly : Chars → Bool := fun t => t == ".JK".data

/-- C4 counterexample: the empty symbol contains no dot, is not validated by
the oracle, and the first validating candidate of the suffix search is .JK,
yet the normalizer returns the empty symbol unchanged: the empty-input guard
short-circuits before any suffix search. -/
theorem normalize_ticker_empty_cex :
    '.' ∉ upper (stripWs []) ∧
    validJKOnly (upper (stripWs [])) = false ∧
    firstValidCandidate validJKOnly (upper (stripWs [])) = some (".JK".data) ∧
    normalize_ticker validJKOnly [] = [] ∧
    ([] : Chars) ≠ ".JK".data := by
  refine ⟨?_, ?_, ?_, ?_, ?_⟩ <;> with_unfolding_all decide

/-- Oracle validating exactly the single symbol BBCA.JK, for the C4 witness. -/
def validBBCAJK : Chars → Bool := fun t => t == "BBCA.JK".data

/-- Witness for the C4 amended theorem: the raw input bbca with surrounding
spaces normalizes to BBCA.JK, the first validating candidate. -/
theorem normalize_ticker_no_dot_witness :
    upper (stripWs " bbca ".data) ≠ [] ∧
    '.' ∉ upper (stripWs " bbca ".data) ∧
    validBBCAJK (upper (stripWs " bbca ".data)) = false ∧
    normalize_ticker validBBCAJK " bbca ".data =
      (firstValidCandidate validBBCAJK (upper (stripWs " bbca ".data))).getD
        (upper (stripWs " bbca ".data)) ∧
    normalize_ticker validBBCAJK " bbca ".data = "BBCA.JK".data := by
  have h1 : upper (stripWs " bbca ".data) ≠ [] := by with_unfolding_all decide
  have h2 : '.' ∉ upper (stripWs " bbca ".data) := by with_unfolding_all decide
  have h3 := (normalize_ticker_no_dot validBBCAJK " bbca ".data h1 h2).2.2
  refine ⟨h1, h2, by with_unfolding_all decide,
    h3 (by with_unfolding_all decide), ?_⟩
  rw [h3 (by with_unfolding_all decide)]
  with_unfolding_all decide

/-- C6: with at least two periods after the chronological sort and a non-zero
first value, get_growth returns the compound growth rate of the last over the
first value, with exponent one over the interval count, minus one, scaled to
a percentage; with a zero first value the CAGR is undefined while the series
is still returned. -/
theorem get_growth_cagr (ps : List (ℕ × ℚ)) (f l : ℕ × ℚ)
    (hlen : 2 ≤ ps.length)
    (hhead : (sortNI ps).head? = some f)
    (hlast : (sortNI ps).getLast? = some l) :
    (f.2 ≠ 0 → get_growth (some ps) = some
      { values := sortNI ps,
        cagr := some ((((l.2 : ℝ) / (f.2 : ℝ)) ^
          ((1 : ℝ) / ((ps.length - 1 : ℕ) : ℝ)) - 1) * 100) }) ∧
    (f.2 = 0 → get_growth (some ps) = some { values := sortNI ps, cagr := none }) := by
  have hlen' : (sortNI ps).length = ps.length := List.length_insertionSort _ _
  rcases hni : sortNI ps with _ | ⟨a, _ | ⟨b, t⟩⟩
  · rw [hni] at hlen'
    simp at hlen'
    omega
  · rw [hni] at hlen'
    simp at hlen'
    omega
  · have hf : a = f := by
      rw [hni] at hhead
      simpa using hhead
    have hl : (b :: t).getLastD (0, 0) = l := by
      rw [hni] at hlast
      rw [List.getLast?_cons_cons] at hlast
      simp [List.getLastD_eq_getLast?, hlast]
    have hyears : ((b :: t).length : ℕ) = ps.length - 1 := by
      rw [hni] at hlen'
      simp only [List.length_cons] at hlen' ⊢
      omega
    constructor
    · intro hf0
      have ha0 : ¬a.2 = 0 := by rw [hf]; exact hf0
      simp only [get_growth, hni, ha0, if_false, if_neg ha0, Option.map_some']
      rw [hf, hl, hyears]
    · intro hf0
      have ha0 : a.2 = 0 := by rw [hf]; exact hf0
      simp [get_growth, hni, ha0]

/-- Witness for C6: the spec's concrete series of 100, 100, 121 over three
periods yields a CAGR of exactly ten percent. -/
theorem get_growth_cagr_witness :
    ((100 : ℚ) ≠ 0) ∧
    get_growth (some [(2020, 100), (2021, 100), (2022, 121)]) = some
      { values := [(2020, 100), (2021, 100), (2022, 121)], cagr := some 10 } := by
  have hsort : sortNI [(2020, 100), (2021, 100), (2022, 121)] =
      [(2020, 100), (2021, 100), (2022, 121)] := by with_unfolding_all decide
  have h := (get_growth_cagr [(2020, 100), (2021, 100), (2022, 121)]
      (2020, 100) (2022, 121) (by norm_num)
      (by rw [hsort]; rfl) (by rw [hsort]; rfl)).1 (by norm_num)
  refine ⟨by norm_num, ?_⟩
  rw [h, hsort]
  simp only [Option.some.injEq, Growth.mk.injEq, true_and, List.length_cons,
    List.length_nil]
  norm_num
  rw [show (121 : ℝ)/100 = ((11 : ℝ)/10) ^ (2 : ℕ) by norm_num,
    ← Real.rpow_natCast ((11 : ℝ)/10) 2, ← Real.rpow_mul (by norm_num)]
  norm_num

/-- C7: with fewer than two periods the CAGR is undefined while the sorted
period-to-value list is still returned, and that list is non-empty whenever
at least one period exists. -/
theorem get_growth_short_series (ps : List (ℕ × ℚ)) (h : ps.length < 2) :
    get_growth (some ps) = some { values := sortNI ps, cagr := none } ∧
    (ps ≠ [] → sortNI ps ≠ []) := by
  have hlen : (sortNI ps).length = ps.length := List.length_insertionSort _ _
  constructor
  · rcases hni : sortNI ps with _ | ⟨a, _ | ⟨b, t⟩⟩
    · simp [get_growth, hni]
    · simp [get_growth, hni]
    · rw [hni] at hlen
      simp only [List.length_cons] at hlen
      omega
  · intro hne hcon
    rw [hcon] at hlen
    simp at hlen
    exact hne (List.eq_nil_of_length_eq_zero hlen.symm)

/-- Witness for C7: a single-period series keeps its one entry and has no
CAGR. -/
theorem get_growth_short_series_witness :
    ([((2023 : ℕ), (5 : ℚ))].length < 2) ∧
    get_growth (some [(2023, 5)]) = some { values := [(2023, 5)], cagr := none } ∧
    sortNI [((2023 : ℕ), (5 : ℚ))] ≠ [] := by
  have h := get_growth_short_series [(2023, 5)] (by norm_num)
  refine ⟨by norm_num, ?_, h.2 (by simp)⟩
  rw [h.1, show sortNI [((2023 : ℕ), (5 : ℚ))] = [(2023, 5)] from by
    with_unfolding_all decide]

/-- Pairing between an optional value and its two-decimal rendering through
the source's `fmt2` helper. -/
theorem fmt2_pairing (x : Option ℚ) :
    (fmt2 x = none ↔ x = none) ∧
    ∀ q, x = some q → fmt2 x = some (fmtFixedQ false 2 q) := by
  cases x <;> simp [fmt2]

/-- C10: in every result of a successful analysis (which a non-empty raw
ticker always produces), each formatted ratio companion field is defined
exactly when its raw ratio is, and then renders it with exactly two decimal
places. -/
theorem analyze_ratio_str_pairing (g : Gateway) (raw : Chars) (hne : raw ≠ []) :
    (((resultOf g raw).ratios.PER_str = none ↔ (resultOf g raw).ratios.PER = none) ∧
      ∀ q, (resultOf g raw).ratios.PER = some q →
        (resultOf g raw).ratios.PER_str = some (fmtFixedQ false 2 q)) ∧
    (((resultOf g raw).ratios.PBV_str = none ↔ (resultOf g raw).ratios.PBV = none) ∧
      ∀ q, (resultOf g raw).ratios.PBV = some q →
        (resultOf g raw).ratios.PBV_str = some (fmtFixedQ false 2 q)) ∧
    (((resultOf g raw).ratios.ROE_str = none ↔ (resultOf g raw).ratios.ROE = none) ∧
      ∀ q, (resultOf g raw).ratios.ROE = some q →
        (resultOf g raw).ratios.ROE_str = some (fmtFixedQ false 2 q)) ∧
    (((resultOf g raw).ratios.DER_str = none ↔ (resultOf g raw).ratios.DER = none) ∧
      ∀ q, (resultOf g raw).ratios.DER = some q →
        (resultOf g raw).ratios.DER_str = some (fmtFixedQ false 2 q)) ∧
    (((resultOf g raw).ratios.DividendYield_str = none ↔
        (resultOf g raw).ratios.DividendYieldPct = none) ∧
      ∀ q, (resultOf g raw).ratios.DividendYieldPct = some q →
        (resultOf g raw).ratios.DividendYield_str = some (fmtFixedQ false 2 q)) := by
  have hred : (resultOf g raw).ratios =
      { PER := (compute_ratios (get_basic_info g
            (normalize_ticker_calls (is_valid_ticker g) (upper (stripWs raw))).1) g
            (normalize_ticker_calls (is_valid_ticker g) (upper (stripWs raw))).1).PER
        PER_str := fmt2 (compute_ratios (get_basic_info g
            (normalize_ticker_calls (is_valid_ticker g) (upper (stripWs raw))).1) g
            (normalize_ticker_calls (is_valid_ticker g) (upper (stripWs raw))).1).PER
        PBV := (compute_ratios (get_basic_info g
            (normalize_ticker_calls (is_valid_ticker g) (upper (stripWs raw))).1) g
            (normalize_ticker_calls (is_valid_ticker g) (upper (stripWs raw))).1).PBV
        PBV_str := fmt2 (compute_ratios (get_basic_info g
            (normalize_ticker_calls (is_valid_ticker g) (upper (stripWs raw))).1) g
            (normalize_ticker_calls (is_valid_ticker g) (upper (stripWs raw))).1).PBV
        ROE := (compute_ratios (get_basic_info g
            (normalize_ticker_calls (is_valid_ticker g) (upper (stripWs raw))).1) g
            (normalize_ticker_calls (is_valid_ticker g) (upper (stripWs raw))).1).ROE
        ROE_str := fmt2 (compute_ratios (get_basic_info g
            (normalize_ticker_calls (is_valid_ticker g) (upper (stripWs raw))).1) g
            (normalize_ticker_calls (is_valid_ticker g) (upper (stripWs raw))).1).ROE
        DER := (compute_ratios (get_basic_info g
            (normalize_ticker_calls (is_valid_ticker g) (upper (stripWs raw))).1) g
            (normalize_ticker_calls (is_valid_ticker g) (upper (stripWs raw))).1).DER
        DER_str := fmt2 (compute_ratios (get_basic_info g
            (normalize_ticker_calls (is_valid_ticker g) (upper (stripWs raw))).1) g
            (normalize_ticker_calls (is_valid_ticker g) (upper (stripWs raw))).1).DER
        DividendYieldPct := (compute_ratios (get_basic_info g
            (normalize_ticker_calls (is_valid_ticker g) (upper (stripWs raw))).1) g
            (normalize_ticker_calls (is_valid_ticker g) (upper (stripWs raw))).1).DividendYieldPct
        DividendYield_str := fmt2 (compute_ratios (get_basic_info g
            (normalize_ticker_calls (is_valid_ticker g) (upper (stripWs raw))).1) g
            (normalize_ticker_calls (is_valid_ticker g)
              (upper (stripWs raw))).1).DividendYieldPct } := by
    simp [resultOf, analyze_stock_for_web, hne]
  rw [hred]
  exact ⟨fmt2_pairing _, fmt2_pairing _, fmt2_pairing _, fmt2_pairing _, fmt2_pairing _⟩

/-- Witness for C10 against the USD stub gateway at the raw ticker AAPL. -/
theorem analyze_ratio_str_pairing_witness :
    (("AAPL".data : Chars) ≠ []) ∧
    (((resultOf gAAPL "AAPL".data).ratios.PER_str = none ↔
        (resultOf gAAPL "AAPL".data).ratios.PER = none) ∧
      ∀ q, (resultOf gAAPL "AAPL".data).ratios.PER = some q →
        (resultOf gAAPL "AAPL".data).ratios.PER_str = some (fmtFixedQ false 2 q)) :=
  ⟨by simp, (analyze_ratio_str_pairing gAAPL "AAPL".data (by simp)).1⟩

/-- C1 amended: the analysis raises the empty-ticker error, with zero gateway
calls, exactly on the empty raw string; every non-empty raw ticker
(whitespace-only input included) yields a successful result whatever data the
gateway is missing, so absent upstream fields never cause a failure by
themselves. -/
theorem analyze_empty_guard_total (g : Gateway) (raw : Chars) :
    (raw = [] → analyze_stock_for_web g raw = (Except.error "Ticker kosong", [])) ∧
    (raw ≠ [] → (analyze_stock_for_web g raw).1 = Except.ok (resultOf g raw)) := by
  constructor
  · intro h
    subst h
    rfl
  · intro h
    simp [resultOf, analyze_stock_for_web, h]

/-- Witness for the C1 amended theorem: the empty string is rejected with no
calls, and a one-letter ticker against an empty gateway still succeeds. -/
theorem analyze_empty_guard_total_witness :
    analyze_stock_for_web gNone [] = (Except.error "Ticker kosong", []) ∧
    ((['A'] : Chars) ≠ []) ∧
    (analyze_stock_for_web gNone ['A']).1 = Except.ok (resultOf gNone ['A']) :=
  ⟨(analyze_empty_guard_total gNone []).1 rfl, by simp,
    (analyze_empty_guard_total gNone ['A']).2 (by simp)⟩

/-- C1 counterexample: a whitespace-only ticker is not rejected: the analysis
succeeds instead of failing with the empty-input error, and it performs
gateway lookups (here of the empty symbol) rather than zero of them. -/
theorem analyze_whitespace_cex :
    (analyze_stock_for_web gNone [' ']).1 = Except.ok (resultOf gNone [' ']) ∧
    (analyze_stock_for_web gNone [' ']).2 =
      [GCall.infoQ [], GCall.balanceQ [], GCall.financialsQ []] ∧
    (analyze_stock_for_web gNone [' ']).2 ≠ [] := by
  refine ⟨by simp [resultOf, analyze_stock_for_web], ?_, ?_⟩
  · rfl
  · intro hcon
    rw [show (analyze_stock_for_web gNone [' ']).2 =
      [GCall.infoQ [], GCall.balanceQ [], GCall.financialsQ []] from rfl] at hcon
    cases hcon

/-- Conversion of a small scalar value into a character and back. -/
theorem toNat_ofNat_small (n : ℕ) (h : n < 55296) : (Char.ofNat n).toNat = n := by
  have hv : n.isValidChar := Or.inl h
  rw [Char.ofNat, dif_pos hv]
  simp [Char.ofNatAux, Char.toNat, UInt32.toNat, BitVec.toNat_ofNatLt]

/-- ASCII uppercasing is idempotent on characters. -/
theorem toUpper_idem (c : Char) : c.toUpper.toUpper = c.toUpper := by
  unfold Char.toUpper
  by_cases h : 97 ≤ c.toNat ∧ c.toNat ≤ 122
  · rw [if_pos h]
    have ht : (Char.ofNat (c.toNat - 32)).toNat = c.toNat - 32 :=
      toNat_ofNat_small _ (by omega)
    rw [if_neg (by omega)]
  · rw [if_neg h, if_neg h]

/-- Uppercasing never turns a character into or out of whitespace. -/
theorem isWsChar_toUpper (c : Char) : isWsChar c.toUpper = isWsChar c := by
  by_cases h : 97 ≤ c.toNat ∧ c.toNat ≤ 122
  · have ht : c.toUpper.toNat = c.toNat - 32 := by
      unfold Char.toUpper
      rw [if_pos h]
      exact toNat_ofNat_small _ (by omega)
    have h1 : isWsChar c.toUpper = false := by
      simp only [isWsChar, Bool.or_eq_false_iff, decide_eq_false_iff_not]
      refine ⟨⟨⟨⟨⟨?_, ?_⟩, ?_⟩, ?_⟩, ?_⟩, ?_⟩
      all_goals intro heq
      · have h32 : c.toUpper.toNat = 32 := by rw [heq]; decide
        omega
      · have h32 : c.toUpper.toNat = 9 := by rw [heq]; decide
        omega
      · have h32 : c.toUpper.toNat = 10 := by rw [heq]; decide
        omega
      · have h32 : c.toUpper.toNat = 13 := by rw [heq]; decide
        omega
      · have h32 : c.toUpper.toNat = 11 := by rw [heq]; decide
        omega
      · have h32 : c.toUpper.toNat = 12 := by rw [heq]; decide
        omega
    have h2 : isWsChar c = false := by
      simp only [isWsChar, Bool.or_eq_false_iff, decide_eq_false_iff_not]
      refine ⟨⟨⟨⟨⟨?_, ?_⟩, ?_⟩, ?_⟩, ?_⟩, ?_⟩
      all_goals intro heq
      all_goals subst heq
      all_goals exact absurd h (by decide)
    rw [h1, h2]
  · have hid : c.toUpper = c := by
      unfold Char.toUpper
      rw [if_neg h]
    rw [hid]

/-- Python uppercasing of a whole string is idempotent. -/
theorem upper_idem_list (l : Chars) : upper (upper l) = upper l := by
  simp only [upper, List.map_map]
  exact List.map_congr_left fun c _ => toUpper_idem c

/-- A list whose head fails the predicate is untouched by dropWhile. -/
theorem dropWhile_eq_self_of_head? {p : Char → Bool} {l : Chars}
    (h : ∀ a, l.head? = some a → p a = false) : l.dropWhile p = l := by
  cases l with
  | nil => rfl
  | cons b t =>
    have hb := h b rfl
    simp [List.dropWhile_cons, hb]

/-- The head of a stripped string is never whitespace. -/
theorem stripWs_head?_false (l : Chars) (a : Char)
    (h : (stripWs l).head? = some a) : isWsChar a = false := by
  have hpre : (stripWs l) <+: (l.dropWhile isWsChar) := List.rdropWhile_prefix _ _
  obtain ⟨t, ht⟩ := hpre
  have hh : (l.dropWhile isWsChar).head? = some a := by
    rw [← ht]
    cases hsw : stripWs l with
    | nil =>
      rw [hsw] at h
      cases h
    | cons b bt =>
      rw [hsw] at h
      injection h with h'
      subst h'
      rfl
  have hnot := List.head?_dropWhile_not isWsChar l
  rw [hh] at hnot
  exact hnot

/-- The last character of a stripped string is never whitespace. -/
theorem stripWs_getLast?_false (l : Chars) (a : Char)
    (h : (stripWs l).getLast? = some a) : isWsChar a = false := by
  have hne : stripWs l ≠ [] := by
    intro hc
    rw [hc] at h
    cases h
  have hlast := List.getLast?_eq_getLast (stripWs l) hne
  rw [hlast] at h
  injection h with h'
  have hnot := List.rdropWhile_last_not isWsChar (l.dropWhile isWsChar) hne
  rw [← h']
  simp only [Bool.not_eq_true] at hnot
  exact hnot

/-- A string with no whitespace at either end is untouched by stripping. -/
theorem stripWs_eq_self_of (l : Chars)
    (hh : ∀ a, l.head? = some a → isWsChar a = false)
    (hl : ∀ a, l.getLast? = some a → isWsChar a = false) :
    stripWs l = l := by
  have h1 : l.dropWhile isWsChar = l := dropWhile_eq_self_of_head? hh
  show (l.dropWhile isWsChar).rdropWhile isWsChar = l
  rw [h1, List.rdropWhile_eq_self_iff]
  intro hne
  have := hl (l.getLast hne) (List.getLast?_eq_getLast l hne)
  simp [this]

/-- Stripping is idempotent. -/
theorem stripWs_idem (l : Chars) : stripWs (stripWs l) = stripWs l :=
  stripWs_eq_self_of _ (stripWs_head?_false l) (stripWs_getLast?_false l)

/-- Stripping commutes with uppercasing. -/
theorem stripWs_upper_comm (l : Chars) : stripWs (upper l) = upper (stripWs l) := by
  have hpf : (isWsChar ∘ Char.toUpper) = isWsChar := funext fun c => isWsChar_toUpper c
  simp only [stripWs, upper, List.rdropWhile, List.dropWhile_map, hpf, ← List.map_reverse]

/-- The trimmed uppercased symbol is a fixed point of trimming and
uppercasing. -/
theorem normalize_symbol_fixed (raw : Chars) :
    upper (stripWs (upper (stripWs raw))) = upper (stripWs raw) := by
  rw [stripWs_upper_comm, stripWs_idem, upper_idem_list]

/-- The head of the trimmed uppercased symbol is never whitespace. -/
theorem upper_stripWs_head?_false (raw : Chars) (a : Char)
    (h : (upper (stripWs raw)).head? = some a) : isWsChar a = false := by
  rcases hb : (stripWs raw).head? with _ | b
  · rw [show (upper (stripWs raw)).head? = ((stripWs raw).head?).map Char.toUpper from by
      cases stripWs raw <;> rfl, hb] at h
    cases h
  · rw [show (upper (stripWs raw)).head? = ((stripWs raw).head?).map Char.toUpper from by
      cases stripWs raw <;> rfl, hb] at h
    injection h with h'
    rw [← h', isWsChar_toUpper]
    exact stripWs_head?_false raw b hb

/-- Per-suffix facts about the fixed exchange suffix list: each non-empty
suffix contains a dot, is already uppercase, and ends in a non-whitespace
character. -/
theorem exchange_suffix_facts : ∀ sfx ∈ EXCHANGE_SUFFIXES, sfx ≠ [] →
    ('.' ∈ sfx ∧ upper sfx = sfx ∧ isWsChar (sfx.getLastD 'A') = false) := by
  with_unfolding_all decide

/-- Appending a validated suffix keeps the symbol a fixed point of trimming
and uppercasing. -/
theorem normalize_candidate_fixed (raw sfx : Chars)
    (hne : upper (stripWs raw) ≠ []) (hsfxu : upper sfx = sfx) (hsfxne : sfx ≠ [])
    (hsfxlast : isWsChar (sfx.getLastD 'A') = false) :
    upper (stripWs (upper (stripWs raw) ++ sfx)) = upper (stripWs raw) ++ sfx := by
  have hst : stripWs (upper (stripWs raw) ++ sfx) = upper (stripWs raw) ++ sfx := by
    apply stripWs_eq_self_of
    · intro a h
      rcases hcs : upper (stripWs raw) with _ | ⟨b, bt⟩
      · exact absurd hcs hne
      · rw [hcs] at h
        injection h with h'
        subst h'
        exact upper_stripWs_head?_false raw b (by rw [hcs]; rfl)
    · intro a h
      rw [List.getLast?_append] at h
      have hsl : sfx.getLast? = some a := by
        rcases hq : sfx.getLast? with _ | q
        · rw [hq] at h
          exact absurd (List.getLast?_eq_none_iff.mp hq) hsfxne
        · rw [hq] at h
          simp at h
          rw [h]
      have : sfx.getLastD 'A' = a := by
        rw [List.getLastD_eq_getLast?, hsl]
        rfl
      rw [← this]
      exact hsfxlast
  have hu : upper (upper (stripWs raw) ++ sfx) = upper (stripWs raw) ++ sfx := by
    show (upper (stripWs raw) ++ sfx).map Char.toUpper = upper (stripWs raw) ++ sfx
    rw [List.map_append]
    show upper (upper (stripWs raw)) ++ upper sfx = _
    rw [upper_idem_list, hsfxu]
  rw [hst, hu]

/-- C9: the normalizer is idempotent: against a fixed gateway validity
oracle, normalizing an already-normalized symbol returns it unchanged. -/
theorem normalize_ticker_idem (valid : Chars → Bool) (raw : Chars) :
    normalize_ticker valid (normalize_ticker valid raw) = normalize_ticker valid raw := by
  by_cases hemp : upper (stripWs raw) = []
  · have hr : normalize_ticker valid raw = upper (stripWs raw) := by
      simp [normalize_ticker, hemp]
    rw [hr, hemp]
    rfl
  · by_cases hdot : '.' ∈ upper (stripWs raw)
    · have hr : normalize_ticker valid raw = upper (stripWs raw) := by
        simp [normalize_ticker, hemp, hdot]
      rw [hr]
      simp [normalize_ticker, normalize_symbol_fixed raw, hemp, hdot]
    · by_cases hv : valid (upper (stripWs raw)) = true
      · have hr : normalize_ticker valid raw = upper (stripWs raw) := by
          simp [normalize_ticker, hemp, hdot, hv]
        rw [hr]
        simp [normalize_ticker, normalize_symbol_fixed raw, hemp, hdot, hv]
      · have hvf : valid (upper (stripWs raw)) = false := by simpa using hv
        cases hss : firstSuffixHit valid (upper (stripWs raw)) EXCHANGE_SUFFIXES with
        | none =>
          have hr : normalize_ticker valid raw = upper (stripWs raw) := by
            simp [normalize_ticker, hemp, hdot, hvf, hss]
          rw [hr]
          simp [normalize_ticker, normalize_symbol_fixed raw, hemp, hdot, hvf, hss]
        | some c =>
          have hr : normalize_ticker valid raw = c := by
            simp [normalize_ticker, hemp, hdot, hvf, hss]
          obtain ⟨sfx, hsfx1, hsfxne, hceq⟩ : ∃ sfx ∈ EXCHANGE_SUFFIXES, sfx ≠ [] ∧
              c = upper (stripWs raw) ++ sfx := by
            have heq := firstSuffixHit_eq_find valid (upper (stripWs raw)) EXCHANGE_SUFFIXES
            rw [heq] at hss
            have hmem := List.mem_of_find?_eq_some hss
            obtain ⟨sfx, hs1, hs2⟩ := List.mem_map.mp hmem
            obtain ⟨ha, hb⟩ := List.mem_filter.mp hs1
            exact ⟨sfx, ha, by simpa [List.isEmpty_iff] using hb, hs2.symm⟩
          obtain ⟨hdot_sfx, hup_sfx, hlast_sfx⟩ := exchange_suffix_facts sfx hsfx1 hsfxne
          have hfix := normalize_candidate_fixed raw sfx hemp hup_sfx hsfxne hlast_sfx
          have hne3 : upper (stripWs raw) ++ sfx ≠ [] := by
            intro hcon
            exact hsfxne (List.append_eq_nil.mp hcon).2
          have hdot3 : '.' ∈ upper (stripWs raw) ++ sfx :=
            List.mem_append_right _ hdot_sfx
          rw [hr, hceq]
          simp [normalize_ticker, hfix, hne3, hdot3]
